import Mathlib

/-!
Shallow embedding of the timeline construction and dispatch subsystem of
`midi-play` (`src/main.rs`): the tempo-aware timeline builder (lines 33-192),
the merge step (`timeline.sort_by_key`, line 195), and the per-event dispatch
logic of the conductor thread (lines 251-300).

Modelling conventions:
- Machine integers (`u8`, `u16`, `u64`) are modelled as `Nat`; no arithmetic in
  the modelled fragment can overflow `u64` for realistic MIDI inputs, and none
  of the modelled operations relies on wrap-around.
- The source converts ticks to microseconds in `f64`:
  `t_sec = abs_ticks as f64 / ppq * (us_per_qn / 1e6); t_us = (t_sec * 1e6) as u64`.
  In exact arithmetic this value is `abs_ticks * us_per_qn / ppq` and the
  `as u64` cast truncates toward zero, so the conversion is modelled as exact
  natural-number division `abs_ticks * us_per_qn / ppq` (floor). Tempo values
  (`tp.as_int()`) and PPQ are integers in the source, so only the division
  introduces a fractional part.
- `Vec::sort_by_key` is a stable sort by key; it is modelled by
  `List.mergeSort` with the key comparison `t_us ≤ t_us`.
- The conductor thread's wall clock (`start.elapsed().as_micros()`) is
  abstracted as a list of observed elapsed-time samples, one per poll
  iteration; each poll dispatches the due prefix of the remaining timeline,
  exactly as the inner `while` loop at lines 259-292 does.
-/

namespace MidiPlay

/-- Channel-voice MIDI messages as decoded by `midly` (input side of the
builder's `TrackEventKind::Midi` arm, lines 157-187). -/
inductive MidiMessage where
  | NoteOn (key vel : Nat)
  | NoteOff (key vel : Nat)
  | ProgramChange (program : Nat)
  | Controller (controller value : Nat)
  | PitchBend (bend : Nat)
  | Aftertouch (key vel : Nat)
  | ChannelAftertouch (vel : Nat)
deriving Repr, DecidableEq

/-- Meta events distinguished by the builder (lines 134-154): only `Tempo`
affects the timeline; time signature, key signature and track name are
printed and otherwise ignored; every other meta event falls into the
wildcard arm. -/
inductive MetaMessage where
  | Tempo (tp : Nat)
  | TimeSignature (numer denom : Nat)
  | KeySignature (key : Int) (scale : Bool)
  | TrackName
  | OtherMeta
deriving Repr, DecidableEq

/-- A `midly::TrackEventKind`: meta event, channel-voice message, or anything
else (SysEx/escape), which the builder ignores (wildcard arm, line 189). -/
inductive TrackEventKind where
  | Meta (m : MetaMessage)
  | Midi (channel : Nat) (message : MidiMessage)
  | Other
deriving Repr, DecidableEq

/-- One decoded track event: a delta-tick count and its kind. -/
structure TrackEvent where
  delta : Nat
  kind : TrackEventKind
deriving Repr, DecidableEq

/-- File-wide timing header: metrical (PPQ) or SMPTE timecode. -/
inductive Timing where
  | Metrical (t : Nat)
  | Smpte
deriving Repr, DecidableEq

/-- A parsed SMF: the timing header and the decoded tracks. -/
structure Smf where
  timing : Timing
  tracks : List (List TrackEvent)
deriving Repr, DecidableEq

/-- PPQ selection (lines 33-36): metrical timing gives its tick count, any
other timing format falls back to 480. -/
def ppqOf : Timing → Nat
  | .Metrical t => t
  | .Smpte => 480

/-- First tempo meta event of a single track, if any (inner loop of the
first-tempo scan, lines 43-48). -/
def firstTempoInTrack : List TrackEvent → Option Nat
  | [] => none
  | ev :: rest =>
    match ev.kind with
    | .Meta (.Tempo tp) => some tp
    | _ => firstTempoInTrack rest

/-- File-wide first-tempo scan (labelled loop `'scan`, lines 42-49): the first
tempo meta event of the first track that has one. -/
def firstTempo : List (List TrackEvent) → Option Nat
  | [] => none
  | tr :: rest =>
    match firstTempoInTrack tr with
    | some tp => some tp
    | none => firstTempo rest

/-- The initial tempo seeding every track (lines 40-49): the first tempo found
anywhere in the file, or 500000 µs per quarter note (120 BPM) if none. -/
def default_us_per_qn (tracks : List (List TrackEvent)) : Nat :=
  (firstTempo tracks).getD 500000

/-- The `Msg` enum of the source (lines 62-109): payloads stored in the
timeline. The source stores the tempo as `f64`; tempo values originate from
the integer `tp.as_int()`, so the field is kept as `Nat`. -/
inductive Msg where
  | NoteOn (ch key vel : Nat)
  | NoteOff (ch key vel : Nat)
  | Program (ch program : Nat)
  | Control (ch controller value : Nat)
  | PitchBend (ch bend : Nat)
  | AfterTouch (ch key vel : Nat)
  | ChannelAftertouch (ch vel : Nat)
  | Tempo (usPerQn : Nat)
deriving Repr, DecidableEq

/-- The `Timed` struct of the source (lines 112-115): absolute time in
microseconds since start, plus the message. -/
structure Timed where
  t_us : Nat
  msg : Msg
deriving Repr, DecidableEq

/-- Tick-to-microsecond conversion (lines 129-130). In exact arithmetic
`(abs_ticks / ppq) * (us_per_qn / 1e6) * 1e6 = abs_ticks * us_per_qn / ppq`,
and the `as u64` cast floors, giving natural-number division. -/
def tUs (absTicks ppq usPerQn : Nat) : Nat :=
  absTicks * usPerQn / ppq

/-- One iteration of the builder's per-event loop (lines 125-191): the state
is `(abs_ticks, us_per_qn)`; the event's delta is added to `abs_ticks`, the
timestamp is computed with the tempo currently in force, and the event is
classified exactly as the source `match` does. Returns the new state and the
list of timeline entries pushed (empty or a singleton). -/
def processEvent (ppq : Nat) (st : Nat × Nat) (ev : TrackEvent) :
    (Nat × Nat) × List Timed :=
  let absTicks := st.1 + ev.delta
  let t_us := tUs absTicks ppq st.2
  match ev.kind with
  | .Meta (.Tempo tp) => ((absTicks, tp), [⟨t_us, .Tempo tp⟩])
  | .Meta _ => ((absTicks, st.2), [])
  | .Midi ch msg =>
    match msg with
    | .NoteOn key vel =>
      if vel = 0 then ((absTicks, st.2), [⟨t_us, .NoteOff ch key 0⟩])
      else ((absTicks, st.2), [⟨t_us, .NoteOn ch key vel⟩])
    | .NoteOff key vel => ((absTicks, st.2), [⟨t_us, .NoteOff ch key vel⟩])
    | .ProgramChange program => ((absTicks, st.2), [⟨t_us, .Program ch program⟩])
    | .Controller controller value =>
      ((absTicks, st.2), [⟨t_us, .Control ch controller value⟩])
    | .PitchBend bend => ((absTicks, st.2), [⟨t_us, .PitchBend ch bend⟩])
    | .Aftertouch key vel => ((absTicks, st.2), [⟨t_us, .AfterTouch ch key vel⟩])
    | .ChannelAftertouch vel => ((absTicks, st.2), [⟨t_us, .ChannelAftertouch ch vel⟩])
  | .Other => ((absTicks, st.2), [])

/-- The builder's inner loop over one track's events, threading the
`(abs_ticks, us_per_qn)` state and concatenating the pushed entries. -/
def buildTrackAux (ppq : Nat) : Nat × Nat → List TrackEvent → List Timed
  | _, [] => []
  | st, ev :: rest =>
    (processEvent ppq st ev).2 ++ buildTrackAux ppq (processEvent ppq st ev).1 rest

/-- The per-track builder (lines 121-123): `abs_ticks` starts at 0 and
`us_per_qn` starts from the file-wide default. -/
def buildTrack (ppq dflt : Nat) (tr : List TrackEvent) : List Timed :=
  buildTrackAux ppq (0, dflt) tr

/-- The full flat timeline before the merge (outer loop, lines 121-192):
every track is walked independently and the pushes are concatenated in
track order. -/
def buildTimeline (smf : Smf) : List Timed :=
  (smf.tracks.map (buildTrack (ppqOf smf.timing) (default_us_per_qn smf.tracks))).flatten

/-- The sort key comparison of `timeline.sort_by_key(|e| e.t_us)` (line 195). -/
def leT (a b : Timed) : Bool := a.t_us ≤ b.t_us

/-- The merged global timeline (line 195): `Vec::sort_by_key` is a stable
sort, modelled by `List.mergeSort` on the key comparison. -/
def globalTimeline (smf : Smf) : List Timed :=
  (buildTimeline smf).mergeSort leT

/-- Calls the conductor thread can make against the synthesis engine
(lines 262-285). -/
inductive SynthCall where
  | note_on (ch key vel : Nat)
  | note_off (ch key : Nat)
  | program_change (ch program : Nat)
  | cc (ch controller value : Nat)
  | pitch_bend (ch bend : Nat)
  | key_pressure (ch key vel : Nat)
  | channel_pressure (ch vel : Nat)
deriving Repr, DecidableEq

/-- Per-event translation performed by the conductor thread's `match`
(lines 261-290): each payload maps to its synthesis-engine call; a pitch
bend with raw value above 16383 is dropped with a diagnostic (lines 274-279)
and a tempo marker is a no-op (lines 287-289); both yield `none`. -/
def dispatchMsg : Msg → Option SynthCall
  | .NoteOn ch key vel => some (.note_on ch key vel)
  | .NoteOff ch key _ => some (.note_off ch key)
  | .Program ch program => some (.program_change ch program)
  | .Control ch controller value => some (.cc ch controller value)
  | .PitchBend ch bend =>
    if bend > 16383 then none else some (.pitch_bend ch bend)
  | .AfterTouch ch key vel => some (.key_pressure ch key vel)
  | .ChannelAftertouch ch vel => some (.channel_pressure ch vel)
  | .Tempo _ => none

/-- One poll iteration of the conductor thread, recorded for analysis:
the elapsed-time sample `now`, the events dispatched by the inner `while`
(line 259), and the events still pending afterwards. -/
structure PollRecord where
  now : Nat
  dispatched : List Timed
  remaining : List Timed
deriving Repr, DecidableEq

/-- The conductor loop (lines 255-296) over a list of observed elapsed-time
samples, one per poll iteration: each poll dispatches the due prefix
(`timeline[i].t_us <= now_us`) of the remaining timeline and advances the
cursor past it. -/
def conductorRun (tl : List Timed) : List Nat → List PollRecord
  | [] => []
  | now :: polls =>
    let due := tl.takeWhile (fun e => e.t_us ≤ now)
    let rest := tl.dropWhile (fun e => e.t_us ≤ now)
    ⟨now, due, rest⟩ :: conductorRun rest polls

/-- Default event used only as the out-of-range fallback of `List.getD`. -/
def dEv : TrackEvent := ⟨0, .Other⟩

/-- Total delta ticks of a list of events. -/
def sumDeltas (tr : List TrackEvent) : Nat := (tr.map TrackEvent.delta).sum

/-- The update a single event performs on `us_per_qn`: a tempo meta event
installs its value (line 138), every other event leaves it unchanged. -/
def tempoStep (u : Nat) (ev : TrackEvent) : Nat :=
  match ev.kind with
  | .Meta (.Tempo tp) => tp
  | _ => u

/-- Tempo in force after processing a list of events starting from `u`: the
value of the last tempo meta event in the list, or `u` if there is none. -/
def tempoAfter (u : Nat) (tr : List TrackEvent) : Nat :=
  tr.foldl tempoStep u

/-- Whether the builder pushes a timeline entry for an event: tempo meta
events and all channel-voice messages do, every other event does not. -/
def emitsEvent (ev : TrackEvent) : Bool :=
  match ev.kind with
  | .Meta (.Tempo _) => true
  | .Meta _ => false
  | .Midi _ _ => true
  | .Other => false

theorem processEvent_fst (ppq a u : Nat) (ev : TrackEvent) :
    (processEvent ppq (a, u) ev).1 = (a + ev.delta, tempoStep u ev) := by
  rcases ev with ⟨d, k⟩
  cases k with
  | Meta m => cases m <;> rfl
  | Midi ch msg =>
    cases msg with
    | NoteOn key vel => by_cases h : vel = 0 <;> simp [processEvent, tempoStep, h]
    | NoteOff key vel => rfl
    | ProgramChange program => rfl
    | Controller controller value => rfl
    | PitchBend bend => rfl
    | Aftertouch key vel => rfl
    | ChannelAftertouch vel => rfl
  | Other => rfl

theorem processEvent_map_tUs (ppq a u : Nat) (ev : TrackEvent) :
    ((processEvent ppq (a, u) ev).2).map Timed.t_us =
      if emitsEvent ev then [tUs (a + ev.delta) ppq u] else [] := by
  rcases ev with ⟨d, k⟩
  cases k with
  | Meta m => cases m <;> rfl
  | Midi ch msg =>
    cases msg with
    | NoteOn key vel => by_cases h : vel = 0 <;> simp [processEvent, emitsEvent, h]
    | NoteOff key vel => rfl
    | ProgramChange program => rfl
    | Controller controller value => rfl
    | PitchBend bend => rfl
    | Aftertouch key vel => rfl
    | ChannelAftertouch vel => rfl
  | Other => rfl

/-- Closed form of the per-track builder's timestamps: the entry emitted for
the `i`-th input event (when the event emits one) is stamped with the tempo
in force just before that event applied to the whole accumulated tick count,
`tUs (a + sumDeltas (take (i+1))) ppq (tempoAfter u (take i))`. -/
theorem buildTrackAux_map_tUs (ppq : Nat) :
    ∀ (tr : List TrackEvent) (a u : Nat),
      (buildTrackAux ppq (a, u) tr).map Timed.t_us =
        (List.range tr.length).flatMap (fun i =>
          if emitsEvent (tr.getD i dEv)
          then [tUs (a + sumDeltas (tr.take (i+1))) ppq (tempoAfter u (tr.take i))]
          else [])
  | [], a, u => rfl
  | ev :: rest, a, u => by
    have ih := buildTrackAux_map_tUs ppq rest (a + ev.delta) (tempoStep u ev)
    simp only [buildTrackAux, List.map_append, processEvent_fst, ih,
      List.length_cons, List.range_succ_eq_map, List.flatMap_cons, List.flatMap_map]
    congr 1
    · rw [processEvent_map_tUs]
      simp [sumDeltas, tempoAfter]
    · congr 1
      funext i
      simp [sumDeltas, tempoAfter, List.take_succ_cons, tempoStep, Nat.add_assoc]

/-- Mapping of a channel-voice message to its timeline payload, identical in
the source and in the claim's reading (the claim disputes timestamps only):
used by the spec-side piecewise builder below. -/
def emitMsg (ch : Nat) : MidiMessage → Msg
  | .NoteOn key vel => if vel = 0 then .NoteOff ch key 0 else .NoteOn ch key vel
  | .NoteOff key vel => .NoteOff ch key vel
  | .ProgramChange program => .Program ch program
  | .Controller controller value => .Control ch controller value
  | .PitchBend bend => .PitchBend ch bend
  | .Aftertouch key vel => .AfterTouch ch key vel
  | .ChannelAftertouch vel => .ChannelAftertouch ch vel

/-- Piecewise-constant tempo integration as the claim describes it: absolute
time accumulates segment by segment, each event's delta ticks converted with
the tempo in force during that segment, so a tempo change affects only ticks
elapsed after it. Exact rational time, truncated to whole microseconds at
emission. This is the claim's reading, kept for comparison with `buildTrack`;
it is not the source's computation. -/
def piecewiseAux (ppq : ℚ) : ℚ → ℚ → List TrackEvent → List Timed
  | _, _, [] => []
  | t, u, ev :: rest =>
    let tNew := t + (ev.delta : ℚ) / ppq * u
    match ev.kind with
    | .Meta (.Tempo tp) =>
      ⟨(⌊tNew⌋).toNat, .Tempo tp⟩ :: piecewiseAux ppq tNew (tp : ℚ) rest
    | .Meta _ => piecewiseAux ppq tNew u rest
    | .Midi ch msg => ⟨(⌊tNew⌋).toNat, emitMsg ch msg⟩ :: piecewiseAux ppq tNew u rest
    | .Other => piecewiseAux ppq tNew u rest

/-- Per-track conversion under the claim's piecewise-integration reading. -/
def piecewiseTrack (ppq dflt : Nat) (tr : List TrackEvent) : List Timed :=
  piecewiseAux (ppq : ℚ) 0 (dflt : ℚ) tr

/-- A track with a mid-track tempo change: tempo 500000 µs/qn at tick 0,
tempo 1000000 µs/qn at tick 480, and a note 480 ticks after the change. -/
def trC1 : List TrackEvent :=
  [⟨0, .Meta (.Tempo 500000)⟩, ⟨480, .Meta (.Tempo 1000000)⟩,
   ⟨480, .Midi 0 (.NoteOn 60 100)⟩]

/-- C1 (counterexample): with PPQ 480, on `trC1` the code stamps the note at
2000000 µs — the tempo change at tick 480 rescales the 480 ticks accumulated
before it — whereas piecewise-constant integration, as the claim states it,
puts the note at 500000 + 480/480·1000000 = 1500000 µs. -/
theorem piecewise_integration_counterexample :
    buildTrack 480 500000 trC1 =
      [⟨0, .Tempo 500000⟩, ⟨500000, .Tempo 1000000⟩, ⟨2000000, .NoteOn 0 60 100⟩] ∧
    piecewiseTrack 480 500000 trC1 =
      [⟨0, .Tempo 500000⟩, ⟨500000, .Tempo 1000000⟩, ⟨1500000, .NoteOn 0 60 100⟩] ∧
    buildTrack 480 500000 trC1 ≠ piecewiseTrack 480 500000 trC1 := by
  refine ⟨by decide, ?_, ?_⟩
  · show piecewiseAux 480 0 500000 trC1 = _
    norm_num [trC1, piecewiseAux, emitMsg]
    decide
  · intro h
    rw [show buildTrack 480 500000 trC1 =
      [⟨0, .Tempo 500000⟩, ⟨500000, .Tempo 1000000⟩, ⟨2000000, .NoteOn 0 60 100⟩]
      from by decide] at h
    rw [show piecewiseTrack 480 500000 trC1 =
      [⟨0, .Tempo 500000⟩, ⟨500000, .Tempo 1000000⟩, ⟨1500000, .NoteOn 0 60 100⟩]
      from by
        show piecewiseAux 480 0 500000 trC1 = _
        norm_num [trC1, piecewiseAux, emitMsg]
        decide] at h
    exact absurd h (by decide)

/-- C1 (amended): each emitted entry's timestamp applies the tempo in force
just before its event — the value of the most recent earlier tempo meta event
in the same track, or the initial seed — to the event's *entire* accumulated
tick count: `⌊abs_ticks · us_per_qn / ppq⌋`. A mid-track tempo change
therefore rescales the conversion of all accumulated ticks, including ticks
accumulated before the change; the integration is not piecewise. -/
theorem conversion_rescales_accumulated_ticks (ppq dflt : Nat) (tr : List TrackEvent) :
    (buildTrack ppq dflt tr).map Timed.t_us =
      (List.range tr.length).flatMap (fun i =>
        if emitsEvent (tr.getD i dEv)
        then [tUs (sumDeltas (tr.take (i+1))) ppq (tempoAfter dflt (tr.take i))]
        else []) := by
  have h := buildTrackAux_map_tUs ppq tr 0 dflt
  simpa [buildTrack] using h

/-- Two files identical except for the tempo value in track 0 — the claim
asserts track 1's timestamps must then agree. -/
def smfC2a : Smf :=
  ⟨.Metrical 480, [[⟨0, .Meta (.Tempo 1000000)⟩], [⟨480, .Midi 0 (.NoteOn 60 100)⟩]]⟩

/-- Same file as `smfC2a` with track 0's tempo changed to 250000 µs/qn. -/
def smfC2b : Smf :=
  ⟨.Metrical 480, [[⟨0, .Meta (.Tempo 250000)⟩], [⟨480, .Midi 0 (.NoteOn 60 100)⟩]]⟩

/-- C2 (counterexample): `smfC2a` and `smfC2b` differ only in track 0's tempo
meta event, yet the builder stamps track 1's note at 1000000 µs in one run and
250000 µs in the other — the first-tempo scan seeds every track's initial
tempo, so one track's tempo events do affect other tracks. -/
theorem cross_track_tempo_counterexample :
    smfC2a.tracks.getD 1 [] = smfC2b.tracks.getD 1 [] ∧
    buildTrack (ppqOf smfC2a.timing) (default_us_per_qn smfC2a.tracks)
      (smfC2a.tracks.getD 1 []) = [⟨1000000, .NoteOn 0 60 100⟩] ∧
    buildTrack (ppqOf smfC2b.timing) (default_us_per_qn smfC2b.tracks)
      (smfC2b.tracks.getD 1 []) = [⟨250000, .NoteOn 0 60 100⟩] :=
  ⟨by decide, by decide, by decide⟩

/-- C2 (amended): tempo events of one track reach other tracks only through
the file-wide first-tempo seed. If two files agree on PPQ and on the
first-discovered tempo, then any track that is present identically in both
receives identical timestamps, whatever the other tracks' tempo events do. -/
theorem cross_track_tempo_isolation_amended (smf1 smf2 : Smf) (j : Nat)
    (hppq : ppqOf smf1.timing = ppqOf smf2.timing)
    (hseed : default_us_per_qn smf1.tracks = default_us_per_qn smf2.tracks)
    (htr : smf1.tracks.getD j [] = smf2.tracks.getD j []) :
    buildTrack (ppqOf smf1.timing) (default_us_per_qn smf1.tracks)
      (smf1.tracks.getD j []) =
    buildTrack (ppqOf smf2.timing) (default_us_per_qn smf2.tracks)
      (smf2.tracks.getD j []) := by
  rw [hppq, hseed, htr]

/-- Two files sharing the first-discovered tempo (500000) and track 1, while
track 0's later tempo events differ. -/
def smfC2c : Smf :=
  ⟨.Metrical 480,
   [[⟨0, .Meta (.Tempo 500000)⟩, ⟨480, .Meta (.Tempo 1000000)⟩],
    [⟨480, .Midi 0 (.NoteOn 60 100)⟩]]⟩

/-- Same as `smfC2c` with track 0's second tempo event changed to 800000. -/
def smfC2d : Smf :=
  ⟨.Metrical 480,
   [[⟨0, .Meta (.Tempo 500000)⟩, ⟨480, .Meta (.Tempo 800000)⟩],
    [⟨480, .Midi 0 (.NoteOn 60 100)⟩]]⟩

theorem cross_track_tempo_isolation_witness :
    buildTrack (ppqOf smfC2c.timing) (default_us_per_qn smfC2c.tracks)
      (smfC2c.tracks.getD 1 []) =
    buildTrack (ppqOf smfC2d.timing) (default_us_per_qn smfC2d.tracks)
      (smfC2d.tracks.getD 1 []) :=
  cross_track_tempo_isolation_amended smfC2c smfC2d 1 (by decide) (by decide) (by decide)

/-- Track A of the end-to-end scenario: Tempo=500000 at tick 0 and
NoteOn(ch0, key60, vel100) at tick 240. -/
def trA : List TrackEvent :=
  [⟨0, .Meta (.Tempo 500000)⟩, ⟨240, .Midi 0 (.NoteOn 60 100)⟩]

/-- Track B of the end-to-end scenario: NoteOn(ch1, key64, vel90) at tick 120. -/
def trB : List TrackEvent := [⟨120, .Midi 1 (.NoteOn 64 90)⟩]

/-- The two-track end-to-end input with PPQ 480. -/
def smfC3 : Smf := ⟨.Metrical 480, [trA, trB]⟩

/-- C3: the global timeline for the two-track scenario holds the tempo marker
at t=0, NoteOn(ch1,64,90) at t=125000 µs and NoteOn(ch0,60,100) at
t=250000 µs, in that order; and the tempo marker is dispatch-inert (the
conductor translates it to no synthesis-engine call). -/
theorem two_track_end_to_end :
    globalTimeline smfC3 =
      [⟨0, .Tempo 500000⟩, ⟨125000, .NoteOn 1 64 90⟩, ⟨250000, .NoteOn 0 60 100⟩] ∧
    dispatchMsg (.Tempo 500000) = none := by
  constructor
  · have h : buildTimeline smfC3 =
        [⟨0, .Tempo 500000⟩, ⟨250000, .NoteOn 0 60 100⟩, ⟨125000, .NoteOn 1 64 90⟩] := by
      decide
    rw [globalTimeline, h]
    simp [List.mergeSort, List.merge, leT]
  · rfl

/-- C4: for every input file, the merged global timeline is monotonically
non-decreasing in `absolute_time_us`: every pair of entries in sequence order
(in particular every adjacent pair) satisfies `t_us ≤ t_us`. -/
theorem global_timeline_sorted (smf : Smf) :
    (globalTimeline smf).Pairwise (fun a b => a.t_us ≤ b.t_us) := by
  have h := @List.sorted_mergeSort _ leT
    (fun a b c hab hbc => by
      simp only [leT, decide_eq_true_eq] at *
      omega)
    (fun a b => by
      simp only [leT, Bool.or_eq_true, decide_eq_true_eq]
      omega)
    (buildTimeline smf)
  exact h.imp (fun hab => by simpa [leT] using hab)

/-- C5: the merge step is a stable sort by `t_us`: the merged global timeline
is a permutation of the concatenated per-track collections (no entry dropped,
duplicated or mutated), and any two entries in encounter order whose
timestamps are ordered (in particular, equal) keep that order in the merged
output. -/
theorem merge_stable_and_perm (smf : Smf) :
    List.Perm (globalTimeline smf) (buildTimeline smf) ∧
    ∀ a b : Timed, a.t_us ≤ b.t_us →
      List.Sublist [a, b] (buildTimeline smf) →
      List.Sublist [a, b] (globalTimeline smf) := by
  constructor
  · exact List.mergeSort_perm _ leT
  · intro a b hab hsub
    exact List.pair_sublist_mergeSort
      (fun x y z hxy hyz => by
        simp only [leT, decide_eq_true_eq] at *
        omega)
      (fun x y => by
        simp only [leT, Bool.or_eq_true, decide_eq_true_eq]
        omega)
      (by simpa [leT] using hab) hsub

/-- A two-track file whose two notes land on the same timestamp (500000 µs),
one from each track, exercising tie-breaking in the merge. -/
def smfC5 : Smf :=
  ⟨.Metrical 480, [[⟨480, .Midi 0 (.NoteOn 60 100)⟩], [⟨480, .Midi 1 (.NoteOn 64 90)⟩]]⟩

theorem merge_stable_and_perm_witness :
    List.Sublist [⟨500000, .NoteOn 0 60 100⟩, ⟨500000, .NoteOn 1 64 90⟩]
      (globalTimeline smfC5) :=
  (merge_stable_and_perm smfC5).2
    ⟨500000, .NoteOn 0 60 100⟩ ⟨500000, .NoteOn 1 64 90⟩ (by decide) (by decide)

/-- Whether a payload is a velocity-0 NoteOn, the shape the builder is
required to normalize away. -/
def isVel0NoteOn : Msg → Bool
  | .NoteOn _ _ vel => vel == 0
  | _ => false

theorem processEvent_no_vel0NoteOn (ppq : Nat) (st : Nat × Nat) (ev : TrackEvent) :
    ∀ e ∈ (processEvent ppq st ev).2, isVel0NoteOn e.msg = false := by
  rcases ev with ⟨d, k⟩
  rcases st with ⟨a, u⟩
  intro e he
  cases k with
  | Meta m => cases m <;> simp_all [processEvent, isVel0NoteOn]
  | Midi ch msg =>
    cases msg with
    | NoteOn key vel =>
      by_cases h : vel = 0 <;> simp_all [processEvent, isVel0NoteOn]
    | NoteOff key vel => simp_all [processEvent, isVel0NoteOn]
    | ProgramChange program => simp_all [processEvent, isVel0NoteOn]
    | Controller controller value => simp_all [processEvent, isVel0NoteOn]
    | PitchBend bend => simp_all [processEvent, isVel0NoteOn]
    | Aftertouch key vel => simp_all [processEvent, isVel0NoteOn]
    | ChannelAftertouch vel => simp_all [processEvent, isVel0NoteOn]
  | Other => simp_all [processEvent]

theorem buildTrackAux_no_vel0NoteOn (ppq : Nat) :
    ∀ (tr : List TrackEvent) (st : Nat × Nat),
      ∀ e ∈ buildTrackAux ppq st tr, isVel0NoteOn e.msg = false
  | [], _, e, he => by simp [buildTrackAux] at he
  | ev :: rest, st, e, he => by
    simp only [buildTrackAux, List.mem_append] at he
    rcases he with he | he
    · exact processEvent_no_vel0NoteOn ppq st ev e he
    · exact buildTrackAux_no_vel0NoteOn ppq rest _ e he

/-- C6: a velocity-0 NoteOn input is emitted as a NoteOff with velocity 0 at
the timestamp the event converts to, and no velocity-0 NoteOn payload ever
appears anywhere in any constructed global timeline. -/
theorem noteOn_vel0_normalized :
    (∀ ppq a u d ch key : Nat,
      (processEvent ppq (a, u) ⟨d, .Midi ch (.NoteOn key 0)⟩).2 =
        [⟨tUs (a + d) ppq u, .NoteOff ch key 0⟩]) ∧
    ∀ smf : Smf, (globalTimeline smf).all (fun e => !(isVel0NoteOn e.msg)) = true := by
  constructor
  · intro ppq a u d ch key
    rfl
  · intro smf
    rw [List.all_eq_true]
    intro e he
    have he' : e ∈ buildTimeline smf := List.mem_mergeSort.mp he
    rw [buildTimeline, List.mem_flatten] at he'
    obtain ⟨s, hs, hes⟩ := he'
    obtain ⟨tr, _, rfl⟩ := List.mem_map.mp hs
    have h := buildTrackAux_no_vel0NoteOn (ppqOf smf.timing) tr
      (0, default_us_per_qn smf.tracks) e hes
    simp [h]

/-- True when a track contains no tempo meta event. -/
def noTempoTrack (tr : List TrackEvent) : Bool :=
  tr.all fun ev =>
    match ev.kind with
    | .Meta (.Tempo _) => false
    | _ => true

/-- True when no track of the file contains a tempo meta event. -/
def noTempoFile (smf : Smf) : Bool := smf.tracks.all noTempoTrack

theorem firstTempoInTrack_eq_none :
    ∀ tr : List TrackEvent, noTempoTrack tr = true → firstTempoInTrack tr = none
  | [], _ => rfl
  | ⟨d, k⟩ :: rest, h => by
    simp only [noTempoTrack, List.all_cons, Bool.and_eq_true] at h
    obtain ⟨h1, h2⟩ := h
    cases k with
    | Meta m =>
      cases m with
      | Tempo tp => simp at h1
      | TimeSignature numer denom => exact firstTempoInTrack_eq_none rest h2
      | KeySignature key scale => exact firstTempoInTrack_eq_none rest h2
      | TrackName => exact firstTempoInTrack_eq_none rest h2
      | OtherMeta => exact firstTempoInTrack_eq_none rest h2
    | Midi ch msg => exact firstTempoInTrack_eq_none rest h2
    | Other => exact firstTempoInTrack_eq_none rest h2

theorem firstTempo_eq_none :
    ∀ tracks : List (List TrackEvent), tracks.all noTempoTrack = true →
      firstTempo tracks = none
  | [], _ => rfl
  | tr :: rest, h => by
    simp only [List.all_cons, Bool.and_eq_true] at h
    show (match firstTempoInTrack tr with
          | some tp => some tp
          | none => firstTempo rest) = none
    rw [firstTempoInTrack_eq_none tr h.1]
    exact firstTempo_eq_none rest h.2

theorem tempoAfter_of_noTempo :
    ∀ (tr : List TrackEvent) (u : Nat), noTempoTrack tr = true → tempoAfter u tr = u
  | [], _, _ => rfl
  | ⟨d, k⟩ :: rest, u, h => by
    simp only [noTempoTrack, List.all_cons, Bool.and_eq_true] at h
    obtain ⟨h1, h2⟩ := h
    have hstep : tempoStep u ⟨d, k⟩ = u := by
      cases k with
      | Meta m =>
        cases m with
        | Tempo tp => simp at h1
        | TimeSignature numer denom => rfl
        | KeySignature key scale => rfl
        | TrackName => rfl
        | OtherMeta => rfl
      | Midi ch msg => rfl
      | Other => rfl
    show tempoAfter (tempoStep u ⟨d, k⟩) rest = u
    rw [hstep]
    exact tempoAfter_of_noTempo rest u h2

theorem noTempoTrack_take (tr : List TrackEvent) (h : noTempoTrack tr = true)
    (i : Nat) : noTempoTrack (tr.take i) = true := by
  rw [noTempoTrack, List.all_eq_true] at *
  intro ev hev
  exact h ev ((List.take_sublist i tr).subset hev)

/-- C7 (amended): in a file with no tempo meta event anywhere, every track is
converted with the 120 BPM default, so the entry emitted for an event at
absolute tick count `ticks` is stamped `⌊ticks · 500000 / ppq⌋` microseconds —
the exact `ticks / ppq · 0.5` seconds truncated to whole microseconds. -/
theorem no_tempo_default_conversion (smf : Smf) (h : noTempoFile smf = true)
    (tr : List TrackEvent) (htr : tr ∈ smf.tracks) :
    (buildTrack (ppqOf smf.timing) (default_us_per_qn smf.tracks) tr).map Timed.t_us =
      (List.range tr.length).flatMap (fun i =>
        if emitsEvent (tr.getD i dEv)
        then [sumDeltas (tr.take (i+1)) * 500000 / ppqOf smf.timing]
        else []) := by
  have hd : default_us_per_qn smf.tracks = 500000 := by
    rw [default_us_per_qn, firstTempo_eq_none smf.tracks h]
    rfl
  have htrNo : noTempoTrack tr = true := by
    rw [noTempoFile, List.all_eq_true] at h
    exact h tr htr
  have hmain := buildTrackAux_map_tUs (ppqOf smf.timing) tr 0 500000
  rw [buildTrack, hd, hmain]
  congr 1
  funext i
  rw [tempoAfter_of_noTempo (tr.take i) 500000 (noTempoTrack_take tr htrNo i)]
  simp [tUs]

/-- A tempo-free track whose events land on fractional-microsecond positions. -/
def trC7w : List TrackEvent :=
  [⟨1, .Midi 0 (.NoteOn 60 100)⟩, ⟨479, .Midi 0 (.NoteOff 60 0)⟩]

/-- A file holding only `trC7w`, with metrical timing PPQ 480. -/
def smfC7w : Smf := ⟨.Metrical 480, [trC7w]⟩

theorem no_tempo_default_conversion_witness :
    (buildTrack (ppqOf smfC7w.timing) (default_us_per_qn smfC7w.tracks) trC7w).map
        Timed.t_us =
      (List.range trC7w.length).flatMap (fun i =>
        if emitsEvent (trC7w.getD i dEv)
        then [sumDeltas (trC7w.take (i+1)) * 500000 / ppqOf smfC7w.timing]
        else []) :=
  no_tempo_default_conversion smfC7w (by decide) trC7w (by decide)

/-- A tempo-free single-track file with one note at tick 1, PPQ 480. -/
def smfC7 : Smf := ⟨.Metrical 480, [[⟨1, .Midi 0 (.NoteOn 60 100)⟩]]⟩

/-- C7 (counterexample): with PPQ 480 and no tempo event anywhere, the event
at absolute tick 1 is stored at 1041 µs, but `ticks / ppq · 0.5` seconds is
`1/480 · 500000 = 3125/3` µs: the stored timestamp is the floor of the exact
value, not equal to it. -/
theorem no_tempo_exact_value_counterexample :
    globalTimeline smfC7 = [⟨1041, .NoteOn 0 60 100⟩] ∧
    ((1041 : ℚ) ≠ (1 : ℚ) / 480 * 500000) := by
  constructor
  · have h : buildTimeline smfC7 = [⟨1041, .NoteOn 0 60 100⟩] := by decide
    rw [globalTimeline, h, List.mergeSort_singleton]
  · norm_num

/-- C8: the conductor drops a pitch-bend payload whose raw value exceeds
16383 — it makes no synthesis-engine call for it — and forwards any raw value
in 0–16383 to the engine's pitch-bend operation with that value. -/
theorem pitchBend_range_check (ch bend : Nat) :
    (bend > 16383 → dispatchMsg (.PitchBend ch bend) = none) ∧
    (bend ≤ 16383 → dispatchMsg (.PitchBend ch bend) = some (.pitch_bend ch bend)) := by
  constructor
  · intro h
    simp only [dispatchMsg]
    rw [if_pos h]
  · intro h
    simp only [dispatchMsg]
    rw [if_neg (by omega)]

theorem pitchBend_range_check_witness :
    dispatchMsg (.PitchBend 0 16384) = none ∧
    dispatchMsg (.PitchBend 0 8192) = some (.pitch_bend 0 8192) :=
  ⟨(pitchBend_range_check 0 16384).1 (by decide),
   (pitchBend_range_check 0 8192).2 (by decide)⟩

theorem mem_dropWhile_due (now : Nat) :
    ∀ tl : List Timed, tl.Pairwise (fun a b => a.t_us ≤ b.t_us) →
      ∀ e ∈ tl.dropWhile (fun x => x.t_us ≤ now), now < e.t_us
  | [], _, e, he => by simp at he
  | x :: rest, h, e, he => by
    rw [List.dropWhile_cons] at he
    by_cases hx : x.t_us ≤ now
    · rw [if_pos (by simpa using hx)] at he
      exact mem_dropWhile_due now rest (List.pairwise_cons.mp h).2 e he
    · rw [if_neg (by simpa using hx)] at he
      rcases List.mem_cons.mp he with rfl | he'
      · omega
      · have := (List.pairwise_cons.mp h).1 e he'
        omega

/-- C9: while the timeline is sorted (as the conductor's input is), every
poll iteration dispatches an event only once the observed elapsed time has
reached its timestamp (`t_us ≤ now`, never before), and leaves pending only
events whose timestamp is still in the future (`now < t_us`) — so an event is
dispatched exactly at the first poll whose elapsed time is at or after its
scheduled time. -/
theorem dispatch_at_or_after (tl : List Timed) (polls : List Nat)
    (hsorted : tl.Pairwise (fun a b => a.t_us ≤ b.t_us)) :
    ∀ r ∈ conductorRun tl polls,
      (∀ e ∈ r.dispatched, e.t_us ≤ r.now) ∧
      (∀ e ∈ r.remaining, r.now < e.t_us) := by
  induction polls generalizing tl with
  | nil =>
    intro r hr
    simp [conductorRun] at hr
  | cons now polls ih =>
    intro r hr
    rw [conductorRun] at hr
    rcases List.mem_cons.mp hr with rfl | hr'
    · refine ⟨?_, ?_⟩
      · intro e he
        have := List.mem_takeWhile_imp he
        simpa using this
      · intro e he
        exact mem_dropWhile_due now tl hsorted e he
    · exact ih (tl.dropWhile fun e => e.t_us ≤ now)
        (hsorted.sublist (List.dropWhile_sublist _)) r hr'

/-- A two-event sorted timeline for exercising the conductor loop. -/
def tlC9 : List Timed := [⟨5, .NoteOn 0 60 100⟩, ⟨9, .NoteOff 0 60 0⟩]

/-- Elapsed-time samples observed at the two polls of the run. -/
def pollsC9 : List Nat := [7, 10]

/-- The record of the first poll of `conductorRun tlC9 pollsC9`. -/
def recC9 : PollRecord := ⟨7, [⟨5, .NoteOn 0 60 100⟩], [⟨9, .NoteOff 0 60 0⟩]⟩

theorem dispatch_at_or_after_witness :
    (Timed.mk 5 (.NoteOn 0 60 100)).t_us ≤ 7 ∧
    7 < (Timed.mk 9 (.NoteOff 0 60 0)).t_us :=
  ⟨(dispatch_at_or_after tlC9 pollsC9 (by decide) recC9 (by decide)).1
      ⟨5, .NoteOn 0 60 100⟩ (by decide),
   (dispatch_at_or_after tlC9 pollsC9 (by decide) recC9 (by decide)).2
      ⟨9, .NoteOff 0 60 0⟩ (by decide)⟩

end MidiPlay
